import Mathlib

/-!
Verification of the job-hunter matching/scoring core
(`backend/src/services/joobleService.ts` and
`backend/src/services/jobRecommendationService.ts`) against its
natural-language specification.

Shallow embedding conventions:
* JavaScript numbers used for scores are modelled as `ℚ`; epoch
  timestamps (milliseconds) as `Int`.
* A `Date` parsed from a string is modelled as `Option Int`
  (`none` = unparseable, i.e. `NaN` in JS; every comparison with
  `NaN` is false, which the embedding reproduces explicitly).
* Optional / possibly-absent object fields are `Option _`;
  JavaScript string truthiness (`""` is falsy) is modelled by the
  `jsStrOr` / `jsOrStr` helpers, numeric truthiness (`0` is falsy)
  by explicit `≠ 0` tests at each use site.
* `async` calls to collaborators (the Jooble provider, the Postgres
  pool, the Python ML oracle) are modelled by explicit environment
  records carrying the collaborator's response, with `Except Unit`
  marking a thrown error; `try`/`catch` blocks become `match`es on
  those `Except` values.
-/

namespace JobHunter

/-- JavaScript `toLowerCase` on the (ASCII) strings in play:
`String.toLower`, written out over the character list. -/
def strLower (s : String) : String := ⟨s.data.map Char.toLower⟩

/-- JavaScript `String.prototype.trim`: strip leading and trailing
whitespace. -/
def jsTrim (s : String) : String :=
  ⟨((s.data.dropWhile Char.isWhitespace).reverse.dropWhile
      Char.isWhitespace).reverse⟩

/-- Does `hay` start with `needle` (character lists)? -/
def charsStartsWith : List Char → List Char → Bool
  | _, [] => true
  | [], _ :: _ => false
  | a :: as, b :: bs => a == b && charsStartsWith as bs

/-- Does `hay` contain `needle` as a contiguous substring
(character lists)?  Models JavaScript `String.prototype.includes`. -/
def charsContains (needle : List Char) : List Char → Bool
  | [] => needle.isEmpty
  | h :: t => charsStartsWith (h :: t) needle || charsContains needle t

/-- JavaScript `hay.includes(needle)` on strings. -/
def strIncludes (hay needle : String) : Bool :=
  charsContains needle.data hay.data

/-- JavaScript `s || dflt` for an optional string field
(`undefined` and `""` are falsy). -/
def jsOrStr (o : Option String) (dflt : String) : String :=
  match o with
  | some s => if s = "" then dflt else s
  | none => dflt

/-- JavaScript `s || dflt` for a present string (`""` is falsy). -/
def jsStrOr (s dflt : String) : String :=
  if s = "" then dflt else s

/-- A job posting in the shape returned by the Jooble provider
(interface `JoobleJob`).  `updated` holds the posting date already
parsed to epoch milliseconds (`none` = a string `new Date` cannot
parse). -/
structure JoobleJob where
  title : String := ""
  location : String := ""
  snippet : String := ""
  salary : String := ""
  source : String := ""
  type : String := ""
  link : String := ""
  updated : Option Int := none
  company : String := ""
  id : String := ""
  deriving DecidableEq, Repr

/-- Provider search response (interface `JoobleResponse`). -/
structure JoobleResponse where
  totalCount : Nat
  jobs : List JoobleJob
  deriving DecidableEq, Repr

/-- Search parameters (interface `JoobleSearchParams`); the unused
`radius`/`salary`/`page` fields are omitted. -/
structure JoobleSearchParams where
  keywords : String := ""
  location : Option String := none
  deriving DecidableEq, Repr

/-- Worker for `deduplicateJobs`: `seen` is the set of link URLs of
jobs already kept (the mutable `Set<string>` in the source). -/
def dedupJobsAux (seen : List String) : List JoobleJob → List JoobleJob
  | [] => []
  | j :: js =>
    if j.link ∈ seen then dedupJobsAux seen js
    else j :: dedupJobsAux (j.link :: seen) js

/-- `JoobleService.deduplicateJobs`: keep the first job for each
link URL, dropping later duplicates. -/
def deduplicateJobs (jobs : List JoobleJob) : List JoobleJob :=
  dedupJobsAux [] jobs

/-- The hard provider call budget (`JoobleService.API_LIMIT`). -/
def API_LIMIT : Nat := 500

/-- Row of the `jobs` cache table (schema used by
`storeJobsInDatabase` / `getJobsFromDatabase` /
`storeRecommendations`).  `posted_date` is the parsed timestamp. -/
structure DbJobRow where
  id : Nat := 0
  title : String := ""
  company : String := ""
  location : String := ""
  description : String := ""
  url : String := ""
  posted_date : Option Int := none
  salary : String := ""
  source : String := ""
  job_type : String := ""
  is_active : Bool := true
  deriving DecidableEq, Repr

/-- Outcome of one `axios.post` to the Jooble provider: either a
parsed response or a thrown error (timeout, non-2xx, malformed
body). -/
inductive ProviderResult where
  | ok (resp : JoobleResponse)
  | err
  deriving DecidableEq, Repr

/-- Environment of one `searchJobs` call: the provider outcome, the
rows the cache `SELECT` would yield (`Except.error` = the database
query throws), and whether the caching transaction
(`storeJobsInDatabase`) succeeds. -/
structure SearchEnv where
  provider : ProviderResult
  cacheDb : Except Unit (List DbJobRow)
  storeOk : Bool
  deriving Repr

/-- Descending order on `posted_date` used by the cache query's
`ORDER BY posted_date DESC` (`NULL`s first, Postgres default for
descending order). -/
def postedDescR (a b : DbJobRow) : Prop :=
  match a.posted_date, b.posted_date with
  | none, _ => True
  | some _, none => False
  | some x, some y => y ≤ x

instance : DecidableRel postedDescR := by
  intro a b
  unfold postedDescR
  rcases a.posted_date with _ | x <;> rcases b.posted_date with _ | y <;>
    simp <;> infer_instance

/-- The row filter of the cache query in `getJobsFromDatabase`:
`is_active`, keyword `LIKE` against lower-cased title/description,
and location `LIKE`.  An empty keyword string or absent location is
falsy in JavaScript, so the corresponding clause is skipped. -/
def dbRowMatches (params : JoobleSearchParams) (row : DbJobRow) : Bool :=
  row.is_active &&
  (params.keywords = "" ||
    (strIncludes (strLower row.title) (strLower params.keywords) ||
     strIncludes (strLower row.description) (strLower params.keywords))) &&
  (match params.location with
   | none => true
   | some loc =>
     loc = "" || strIncludes (strLower row.location) (strLower loc))

/-- Shape conversion from a cache row back to the Jooble format, as
in the `result.rows.map` of `getJobsFromDatabase`. -/
def dbRowToJob (row : DbJobRow) : JoobleJob :=
  { title := row.title
    location := row.location
    snippet := row.description
    salary := row.salary
    source := row.source
    type := row.job_type
    link := row.url
    updated := row.posted_date
    company := row.company
    id := Nat.repr row.id }

/-- The `try` block of `JoobleService.getJobsFromDatabase`: run the
filtered, ordered, 50-row-limited cache query and convert rows. -/
def getJobsFromDatabaseTry (env : SearchEnv) (params : JoobleSearchParams) :
    Except Unit JoobleResponse :=
  match env.cacheDb with
  | .error e => .error e
  | .ok rows =>
    let jobs := (((rows.filter (dbRowMatches params)).insertionSort
        postedDescR).take 50).map dbRowToJob
    .ok { totalCount := jobs.length, jobs := jobs }

/-- `JoobleService.getJobsFromDatabase`: its `catch` turns a failed
cache query into the empty result. -/
def getJobsFromDatabase (env : SearchEnv) (params : JoobleSearchParams) :
    JoobleResponse :=
  match getJobsFromDatabaseTry env params with
  | .ok r => r
  | .error _ => { totalCount := 0, jobs := [] }

/-- The `try` block of `JoobleService.searchJobs`, threading the
`apiCallCount` instance field explicitly.  Returns the counter value
after the block together with either the produced response or the
thrown error.  Branches, in source order: budget exhausted → serve
the cache; provider throws → rethrow with the counter unchanged;
provider succeeds → increment the counter, then cache the jobs
(`storeJobsInDatabase` may itself throw, after the increment). -/
def searchJobsTry (env : SearchEnv) (count : Nat)
    (params : JoobleSearchParams) : Nat × Except Unit JoobleResponse :=
  if count ≥ API_LIMIT then
    (count, .ok (getJobsFromDatabase env params))
  else
    match env.provider with
    | .err => (count, .error ())
    | .ok resp =>
      if env.storeOk then (count + 1, .ok resp)
      else (count + 1, .error ())

/-- `JoobleService.searchJobs`: the `catch` of any error from the
try block falls back to the database.  First component: the
`apiCallCount` after the call. -/
def searchJobs (env : SearchEnv) (count : Nat)
    (params : JoobleSearchParams) : Nat × JoobleResponse :=
  match searchJobsTry env count params with
  | (c, .ok r) => (c, r)
  | (c, .error _) => (c, getJobsFromDatabase env params)

/-- Value of the `apiCallCount` field after a sequence of
`searchJobs` calls starting from counter `c`. -/
def runSearchCalls (c : Nat) :
    List (SearchEnv × JoobleSearchParams) → Nat
  | [] => c
  | step :: rest => runSearchCalls (searchJobs step.1 c step.2).1 rest

/-- The `extractedInfo` object of a résumé analysis (ML analyzer
format).  Absent array fields behave exactly like empty arrays under
the source's `?.length || 0` probes, so they are modelled as `[]`;
absent string fields behave like `""`. -/
structure ExtractedInfo where
  skills : List String := []
  sections : List String := []
  has_contact : Bool := false
  email : String := ""
  phone : String := ""
  work_experience : List String := []
  education : List String := []
  word_count : Nat := 0
  total_bullets : Nat := 0
  deriving DecidableEq, Repr

/-- The `metrics` object of a résumé analysis. -/
structure Metrics where
  wordCount : Nat := 0
  totalBullets : Nat := 0
  deriving DecidableEq, Repr

/-- The duck-typed `analysis.skills` field: either the rule-based
object shape with `technical` (a map whose `Object.values` are
arrays of skills, kept here as the list of those arrays) and `soft`
members, or a plain top-level array of skills. -/
inductive SkillsField where
  | obj (technical : Option (List (List String)))
      (soft : Option (List String))
  | arr (skills : List String)
  deriving DecidableEq, Repr

/-- A résumé-analysis record as consumed by the service (`any` in
the source; fields it actually probes). -/
structure ResumeAnalysis where
  score : ℚ := 0
  skills : Option SkillsField := none
  extractedInfo : Option ExtractedInfo := none
  metrics : Option Metrics := none
  extractedText : String := ""
  deriving DecidableEq, Repr

/-- Effective word count used by the validator:
`analysis.metrics?.wordCount || info.word_count || 0` (numeric
truthiness: a zero metrics count falls through). -/
def effectiveWordCount (a : ResumeAnalysis) (info : ExtractedInfo) : Nat :=
  match a.metrics with
  | some m => if m.wordCount ≠ 0 then m.wordCount else info.word_count
  | none => info.word_count

/-- The five structural checks of `validateResumeFormat`, in source
order, evaluated over an `extractedInfo` object. -/
def formatChecks (a : ResumeAnalysis) (info : ExtractedInfo) : List Bool :=
  [ decide (info.skills.length ≥ 3),
    decide (info.sections.length ≥ 2),
    info.has_contact || decide (info.email ≠ "") || decide (info.phone ≠ ""),
    decide (info.work_experience.length > 0) ||
      decide (info.education.length > 0),
    decide (200 ≤ effectiveWordCount a info) &&
      decide (effectiveWordCount a info ≤ 2000) ]

/-- Number of passed structural checks; a missing `extractedInfo`
is scored over the all-default object (every list empty, no
contact), matching what the probes would yield. -/
def passedChecks (a : ResumeAnalysis) : Nat :=
  (formatChecks a (a.extractedInfo.getD {})).count true

/-- Result record of `validateResumeFormat` (the log-only `details`
object is omitted). -/
structure ValidationResult where
  isValid : Bool
  reason : String
  deriving DecidableEq, Repr

/-- `JoobleService.validateResumeFormat`: reject when
`extractedInfo` is missing, or when fewer than 3 of the 5 checks
pass. -/
def validateResumeFormat (a : ResumeAnalysis) : ValidationResult :=
  match a.extractedInfo with
  | none =>
    { isValid := false
      reason := "Invalid file format. This does not appear to be a resume." }
  | some info =>
    if (formatChecks a info).count true < 3 then
      { isValid := false
        reason := "Invalid resume file. This appears to be a non-resume document. Please upload a valid resume with your professional information." }
    else
      { isValid := true, reason := "Valid resume format" }

/-- Worker for first-occurrence string deduplication
(`[...new Set(xs)]`, whose iteration order is insertion order). -/
def dedupFirstAux (seen : List String) : List String → List String
  | [] => []
  | x :: xs =>
    if x ∈ seen then dedupFirstAux seen xs
    else x :: dedupFirstAux (x :: seen) xs

/-- JavaScript `[...new Set(xs)]`. -/
def dedupFirst (xs : List String) : List String :=
  dedupFirstAux [] xs

/-- Keyword gathering in `extractKeywordsFromResume`, in source
order: `extractedInfo.skills`, then the values of
`skills.technical`, then a top-level `skills` array. -/
def gatherKeywords (a : ResumeAnalysis) : List String :=
  (match a.extractedInfo with
   | some info => info.skills
   | none => []) ++
  (match a.skills with
   | some (.obj (some tech) _) => tech.flatten
   | _ => []) ++
  (match a.skills with
   | some (.arr l) => l
   | _ => [])

/-- `uniqueKeywords`: drop empty / whitespace-only strings, then
deduplicate by exact string identity. -/
def uniqueKeywords (a : ResumeAnalysis) : List String :=
  dedupFirst ((gatherKeywords a).filter (fun k => jsTrim k ≠ ""))

/-- Static category table `skillCategories.frameworks`. -/
def frameworksTable : List String :=
  ["react", "angular", "vue", "next.js", "next", "express", "express.js",
   "node.js", "node", "django", "flask", "spring", "tailwind", "streamlit"]

/-- Static category table `skillCategories.languages`. -/
def languagesTable : List String :=
  ["python", "java", "javascript", "typescript", "c", "c++", "rust", "go",
   "ruby", "php", "kotlin", "swift"]

/-- Static category table `skillCategories.databases`. -/
def databasesTable : List String :=
  ["mysql", "postgresql", "mongodb", "supabase", "redis", "cassandra",
   "dynamodb", "sql"]

/-- Static category table `skillCategories.cloudTools`. -/
def cloudToolsTable : List String :=
  ["aws", "azure", "gcp", "docker", "kubernetes", "ci/cd", "github actions",
   "git", "github", "version control"]

/-- Static category table `skillCategories.dataScience`. -/
def dataScienceTable : List String :=
  ["machine learning", "ai", "data science", "pandas", "numpy", "plotly",
   "tensorflow", "pytorch", "scikit-learn"]

/-- Static category table `skillCategories.highValue`. -/
def highValueTable : List String :=
  ["full stack", "devops", "microservices", "api", "rest", "graphql"]

/-- Static category table `skillCategories.softSkills`. -/
def softSkillsTable : List String :=
  ["leadership", "communication", "teamwork", "problem solving", "analytical",
   "collaboration", "project management", "critical thinking", "mentoring",
   "presentation", "negotiation", "time management", "event management",
   "team management", "versatile", "trust building", "strategic planning"]

/-- Static category table `skillCategories.business`. -/
def businessTable : List String :=
  ["marketing", "sales", "business development", "strategy", "consulting",
   "finance", "accounting", "economics", "operations", "supply chain"]

/-- Static category table `skillCategories.design`. -/
def designTable : List String :=
  ["ui/ux", "graphic design", "product design", "figma", "sketch",
   "photoshop", "illustrator", "wireframing", "prototyping"]

/-- Static category table `skillCategories.management`. -/
def managementTable : List String :=
  ["agile", "scrum", "kanban", "pmp", "prince2", "stakeholder management",
   "resource planning", "budget management"]

/-- Substring-membership categorisation (`skillLower.includes(x)`)
against one table, over the unique keywords in their original
order. -/
def categorize (a : ResumeAnalysis) (table : List String) : List String :=
  (uniqueKeywords a).filter
    (fun s => table.any (fun x => strIncludes (strLower s) x))

/-- The languages category compares by equality, not substring
(`skillLower === l`). -/
def categorizeLanguages (a : ResumeAnalysis) : List String :=
  (uniqueKeywords a).filter
    (fun s => languagesTable.any (fun l => strLower s = l))

/-- Every categorised keyword (the `categorizedSet` of the source,
all soft skills included, not only the selected five). -/
def categorizedAll (a : ResumeAnalysis) : List String :=
  categorize a frameworksTable ++ categorizeLanguages a ++
  categorize a databasesTable ++ categorize a cloudToolsTable ++
  categorize a dataScienceTable ++ categorize a highValueTable ++
  categorize a softSkillsTable ++ categorize a businessTable ++
  categorize a designTable ++ categorize a managementTable

/-- `selectedSkills`: category lists concatenated in the source's
priority order, then up to 5 soft skills, then every keyword not in
any category. -/
def selectedSkills (a : ResumeAnalysis) : List String :=
  categorize a highValueTable ++ categorize a frameworksTable ++
  categorizeLanguages a ++ categorize a cloudToolsTable ++
  categorize a databasesTable ++ categorize a dataScienceTable ++
  categorize a businessTable ++ categorize a designTable ++
  categorize a managementTable ++ (categorize a softSkillsTable).take 5 ++
  (uniqueKeywords a).filter (fun s => ¬ s ∈ categorizedAll a)

/-- `finalKeywords = [...new Set(selectedSkills)]`. -/
def finalKeywords (a : ResumeAnalysis) : List String :=
  dedupFirst (selectedSkills a)

/-- `JoobleService.extractKeywordsFromResume`: the derived free-text
search query (a fixed default query when no keyword survives). -/
def extractKeywordsFromResume (a : ResumeAnalysis) : String :=
  if (finalKeywords a).isEmpty then "software developer"
  else String.intercalate " " (finalKeywords a)

/-- Milliseconds in a day, the divisor of the freshness age
computation. -/
def msPerDay : Int := 86400000

/-- Fractional age in days of a parsed timestamp at instant `now`
(`(Date.now() - jobDate.getTime()) / (1000*60*60*24)`). -/
def daysOld (now t : Int) : ℚ :=
  ((now - t : Int) : ℚ) / (msPerDay : ℚ)

/-- The freshness band of `calculateMatchScore`.  An unparseable
`updated` string makes every `NaN` comparison false so the final
`else` branch (4 points) is taken. -/
def freshnessPoints (now : Int) : Option Int → ℚ
  | none => 4
  | some t =>
    if daysOld now t ≤ 7 then 15
    else if daysOld now t ≤ 14 then 12
    else if daysOld now t ≤ 30 then 8
    else 4

/-- Lower-cased `title ++ " " ++ snippet` the skill probes run
against. -/
def jobText (job : JoobleJob) : String :=
  strLower (job.title ++ " " ++ job.snippet)

/-- Technical skills gathered from `analysis.skills.technical`
(empty when the field is absent or `skills` is an array). -/
def techSkillsOf (a : ResumeAnalysis) : List String :=
  match a.skills with
  | some (.obj (some tech) _) => tech.flatten
  | _ => []

/-- Soft skills from `analysis.skills.soft`. -/
def softSkillsOf (a : ResumeAnalysis) : List String :=
  match a.skills with
  | some (.obj _ (some soft)) => soft
  | _ => []

/-- Technical skills of the résumé occurring in the job text. -/
def matchedTechSkills (job : JoobleJob) (a : ResumeAnalysis) : List String :=
  (techSkillsOf a).filter (fun s => strIncludes (jobText job) (strLower s))

/-- Soft skills of the résumé occurring in the job text. -/
def matchedSoftSkills (job : JoobleJob) (a : ResumeAnalysis) : List String :=
  (softSkillsOf a).filter (fun s => strIncludes (jobText job) (strLower s))

/-- Fraction of the résumé's technical skills found in the job text
(zero when there are none). -/
def matchedTechnicalSkillsRatio (job : JoobleJob) (a : ResumeAnalysis) : ℚ :=
  if (techSkillsOf a).length = 0 then 0
  else ((matchedTechSkills job a).length : ℚ) / ((techSkillsOf a).length : ℚ)

/-- Fraction of the résumé's soft skills found in the job text. -/
def matchedSoftSkillsRatio (job : JoobleJob) (a : ResumeAnalysis) : ℚ :=
  if (softSkillsOf a).length = 0 then 0
  else ((matchedSoftSkills job a).length : ℚ) / ((softSkillsOf a).length : ℚ)

/-- Salary-presence test `job.salary && job.salary !== 'Not
specified'`. -/
def hasSalary (job : JoobleJob) : Bool :=
  job.salary ≠ "" && job.salary ≠ "Not specified"

/-- `JoobleService.calculateMatchScore`, accumulating the score
exactly as the source does: technical-skill term (40), soft-skill
term (15), ATS boost (20), freshness band, salary bonus (10),
capped at 100. -/
def calculateMatchScore (now : Int) (job : JoobleJob)
    (a : ResumeAnalysis) : ℚ :=
  let s1 : ℚ :=
    match a.skills with
    | some (.obj (some tech) _) =>
      let techSkills := tech.flatten
      let matched := techSkills.filter
        (fun s => strIncludes (jobText job) (strLower s))
      if techSkills.length > 0 then
        ((matched.length : ℚ) / (techSkills.length : ℚ)) * 40
      else 0
    | _ => 0
  let s2 : ℚ :=
    match a.skills with
    | some (.obj _ (some soft)) =>
      let matchedSoft := soft.filter
        (fun s => strIncludes (jobText job) (strLower s))
      if soft.length > 0 then
        ((matchedSoft.length : ℚ) / (soft.length : ℚ)) * 15
      else 0
    | _ => 0
  let s3 : ℚ := (a.score / 100) * 20
  let s4 : ℚ := freshnessPoints now job.updated
  let s5 : ℚ := if hasSalary job then 10 else 0
  min 100 (s1 + s2 + s3 + s4 + s5)

/-- JavaScript `Math.round` (round half away from zero is
half-up-towards-plus-infinity for the non-negative scores in play;
JavaScript itself rounds half towards plus infinity). -/
def jsRound (q : ℚ) : ℤ := ⌊q + 1 / 2⌋

/-- `Math.round(matchScore * 10) / 10`. -/
def roundTo1 (q : ℚ) : ℚ := (jsRound (q * 10) : ℚ) / 10

/-- `JoobleService.getRecommendationReasons`: tier phrase, up to
three matched skills, and a recency callout (skipped for an
unparseable date, where `Math.floor(NaN) <= 3` is false). -/
def getRecommendationReasons (now : Int) (job : JoobleJob)
    (a : ResumeAnalysis) (matchScore : ℚ) : List String :=
  (if 80 ≤ matchScore then
    ["Excellent match for your skills and experience"]
   else if 60 ≤ matchScore then ["Good match for your profile"]
   else if 40 ≤ matchScore then ["Moderate match - consider applying"]
   else []) ++
  (let matched := (matchedTechSkills job a).take 3
   if matched.length > 0 then
     ["Matches your skills: " ++ String.intercalate ", " matched]
   else []) ++
  (match job.updated with
   | some t =>
     if ⌊daysOld now t⌋ ≤ 3 then ["Recently posted - apply quickly!"] else []
   | none => [])

/-- A scored posting as produced by either matching path (the job
fields spread together with `matchScore`, reasons, and the
ML-only extras). -/
structure MatchedJob where
  title : String := ""
  location : String := ""
  snippet : String := ""
  salary : String := ""
  source : String := ""
  type : String := ""
  link : String := ""
  updated : Option Int := none
  company : String := ""
  id : String := ""
  matchScore : ℚ := 0
  recommendationReasons : List String := []
  semanticSimilarity : Option ℚ := none
  matchLevel : Option String := none
  methodology : Option String := none
  deriving DecidableEq, Repr

/-- Rule-based scoring of every job (the fallback `jobs.map` of
`calculateJobMatches`). -/
def ruleBasedMatches (now : Int) (jobs : List JoobleJob)
    (a : ResumeAnalysis) : List MatchedJob :=
  jobs.map (fun job =>
    { title := job.title, location := job.location, snippet := job.snippet
      salary := job.salary, source := job.source, type := job.type
      link := job.link, updated := job.updated, company := job.company
      id := job.id
      matchScore := roundTo1 (calculateMatchScore now job a)
      recommendationReasons :=
        getRecommendationReasons now job a (calculateMatchScore now job a) })

/-- Caller-supplied filters for the recommendation pipeline. -/
structure Filters where
  location : Option String := none
  keywords : Option String := none
  days_posted : Option Int := none
  min_match_score : Option ℚ := none
  deriving DecidableEq, Repr

/-- Descending-score ordering used by
`sort((a, b) => b.matchScore - a.matchScore)`. -/
def scoreDescR (a b : MatchedJob) : Prop := b.matchScore ≤ a.matchScore

instance : DecidableRel scoreDescR := fun a b =>
  inferInstanceAs (Decidable (b.matchScore ≤ a.matchScore))

instance : IsTotal MatchedJob scoreDescR :=
  ⟨fun a b => le_total b.matchScore a.matchScore⟩

instance : IsTrans MatchedJob scoreDescR :=
  ⟨fun _ _ _ h h' => le_trans h' h⟩

/-- Does a match survive the `days_posted` cutoff
(`new Date(job.updated) >= cutoffDate`, false for `NaN`)? -/
def withinDays (now : Int) (d : Int) (m : MatchedJob) : Bool :=
  match m.updated with
  | some t => decide (now - d * msPerDay ≤ t)
  | none => false

/-- `JoobleService.filterAndSortMatches`: optional minimum-score
filter, optional freshness filter (both skipped when the field is
absent *or zero*, by numeric truthiness), sort descending by score,
keep the first 20.  The ECMAScript sort is stable; it is modelled by
insertion sort. -/
def filterAndSortMatches (now : Int) (matchList : List MatchedJob)
    (filters : Filters) : List MatchedJob :=
  let f1 :=
    match filters.min_match_score with
    | some s =>
      if s ≠ 0 then
        matchList.filter (fun m : MatchedJob => decide (s ≤ m.matchScore))
      else matchList
    | none => matchList
  let f2 :=
    match filters.days_posted with
    | some d => if d ≠ 0 then f1.filter (withinDays now d) else f1
    | none => f1
  (f2.insertionSort scoreDescR).take 20

/-- One entry of the ML oracle's `matches` array. -/
structure MLMatch where
  matchScore : Option ℚ := none
  semanticSimilarity : Option ℚ := none
  matchLevel : Option String := none
  reasons : Option (List String) := none
  methodology : Option String := none
  deriving DecidableEq, Repr

/-- Parsed body of a successful oracle HTTP call. -/
structure OracleResp where
  success : Bool
  matchList : Option (List MLMatch)
  deriving DecidableEq, Repr

/-- Combination of one job with its positionally aligned oracle
result (`{...job, matchScore: mlResult.matchScore || 0, ...}`). -/
def mkMLMatched (job : JoobleJob) (r : MLMatch) : MatchedJob :=
  { title := job.title, location := job.location, snippet := job.snippet
    salary := job.salary, source := job.source, type := job.type
    link := job.link, updated := job.updated, company := job.company
    id := job.id
    matchScore := r.matchScore.getD 0
    recommendationReasons := r.reasons.getD []
    semanticSimilarity := r.semanticSimilarity
    matchLevel := r.matchLevel
    methodology := r.methodology }

/-- `JoobleService.calculateMLMatches`.  Its `try`/`catch` encloses
the whole body, so an oracle error, an unsuccessful or
matches-less body — and an index access past the end of a too-short
`matches` array, which throws mid-`map` — all yield `[]`. -/
def calculateMLMatches (oracle : Except Unit OracleResp)
    (jobs : List JoobleJob) : List MatchedJob :=
  match oracle with
  | .error _ => []
  | .ok resp =>
    if resp.success then
      match resp.matchList with
      | some ms =>
        if jobs.length ≤ ms.length then List.zipWith mkMLMatched jobs ms
        else []
      | none => []
    else []

/-- `JoobleService.calculateJobMatches`: prefer the oracle's
non-empty match list, otherwise score every job with the rule-based
formula; both paths end in `filterAndSortMatches`.  The outer
`catch` is unreachable because `calculateMLMatches` already catches
everything. -/
def calculateJobMatches (oracle : Except Unit OracleResp) (now : Int)
    (jobs : List JoobleJob) (a : ResumeAnalysis)
    (filters : Filters) : List MatchedJob :=
  let ml := calculateMLMatches oracle jobs
  if ml.length > 0 then filterAndSortMatches now ml filters
  else filterAndSortMatches now (ruleBasedMatches now jobs a) filters

/-- Environment of one `getRecommendedJobs` call: the job-search
collaborators plus the ML oracle outcome and the current instant. -/
structure RecEnv where
  search : SearchEnv
  oracle : Except Unit OracleResp
  now : Int

/-- The result object `getRecommendedJobs` resolves with. -/
structure RecommendationOutcome where
  success : Bool
  error : Option String := none
  totalJobs : Nat := 0
  recommendedJobs : Nat := 0
  recommendations : List MatchedJob := []
  atsScore : ℚ := 0
  apiCallsUsed : Nat := 0
  apiCallsRemaining : Nat := 0
  deriving DecidableEq, Repr

/-- `JoobleService.getRecommendedJobs`, threading `apiCallCount`
explicitly.  Returns the result object, the counter after the call,
and whether the job-search stage was reached (`false` on the
validation rejection, which returns before any search).  The
`analysis.score || 0` of the rejection branch coincides with the
plain field because `0 || 0 = 0`. -/
def getRecommendedJobs (env : RecEnv) (count : Nat)
    (a : ResumeAnalysis) (filters : Filters) :
    RecommendationOutcome × Nat × Bool :=
  let keywords := extractKeywordsFromResume a
  let validation := validateResumeFormat a
  if validation.isValid = false then
    ({ success := false
       error := some validation.reason
       totalJobs := 0
       recommendedJobs := 0
       recommendations := []
       atsScore := a.score
       apiCallsUsed := count
       apiCallsRemaining := API_LIMIT - count }, count, false)
  else
    let params : JoobleSearchParams :=
      { keywords := jsOrStr filters.keywords keywords
        location := some (jsOrStr filters.location "") }
    let step := searchJobs env.search count params
    let dbResp := getJobsFromDatabase env.search
      { keywords := jsOrStr filters.keywords keywords
        location := filters.location }
    let allJobs := deduplicateJobs (step.2.jobs ++ dbResp.jobs)
    let recommended := calculateJobMatches env.oracle env.now allJobs a filters
    ({ success := true
       error := none
       totalJobs := allJobs.length
       recommendedJobs := recommended.length
       recommendations := recommended
       atsScore := a.score
       apiCallsUsed := step.1
       apiCallsRemaining := API_LIMIT - step.1 }, step.1, true)

/-- Row of the `job_recommendations` table. -/
structure RecRow where
  user_id : Nat
  resume_id : Nat
  job_id : Nat
  match_score : ℚ
  reasons : List String
  deriving DecidableEq, Repr

/-- The two tables touched by `storeRecommendations`, plus the
sequence feeding the `jobs` primary key. -/
structure DBState where
  jobs : List DbJobRow
  recs : List RecRow
  nextId : Nat
  deriving DecidableEq, Repr

/-- Row inserted into `jobs` for a recommendation whose posting is
absent (URL-keyed insert of `storeRecommendations`); a missing
posting date defaults to the present instant
(`rec.updated || new Date().toISOString()`). -/
def jobRowOfMatch (s : DBState) (now : Int) (m : MatchedJob) : DbJobRow :=
  { id := s.nextId
    title := m.title
    company := jsStrOr m.company "Unknown"
    location := m.location
    description := m.snippet
    url := m.link
    posted_date := some (m.updated.getD now)
    salary := jsStrOr m.salary "Not specified"
    source := jsStrOr m.source "jooble"
    job_type := jsStrOr m.type "Full-time"
    is_active := true }

/-- Append the job row for `m` and advance the key sequence. -/
def insertJob (s : DBState) (now : Int) (m : MatchedJob) : DBState :=
  { s with jobs := s.jobs ++ [jobRowOfMatch s now m], nextId := s.nextId + 1 }

/-- Is `rec` the recommendation row keyed `(u, r, jid)`? -/
def recKeyed (u r jid : Nat) (rec : RecRow) : Prop :=
  rec.user_id = u ∧ rec.resume_id = r ∧ rec.job_id = jid

instance (u r jid : Nat) : DecidablePred (recKeyed u r jid) := by
  intro rec
  unfold recKeyed
  infer_instance

/-- The `INSERT ... ON CONFLICT (user_id, resume_id, job_id) DO
UPDATE` of `storeRecommendations`. -/
def upsertRec (s : DBState) (u r jid : Nat) (m : MatchedJob) : DBState :=
  if s.recs.any (fun rec => decide (recKeyed u r jid rec)) then
    { s with recs := s.recs.map (fun rec =>
        if recKeyed u r jid rec then
          { rec with match_score := m.matchScore
                     reasons := m.recommendationReasons }
        else rec) }
  else
    { s with recs := s.recs ++
        [{ user_id := u, resume_id := r, job_id := jid
           match_score := m.matchScore
           reasons := m.recommendationReasons }] }

/-- The per-recommendation loop of `storeRecommendations` followed
by `COMMIT`, under a failure oracle `f` over the running query
index `k` (`f k = true` = the `k`-th query of this transaction
throws).  Per match: `SELECT` by URL, then either `INSERT` the job
or reuse the found id, then upsert the recommendation row. -/
def storeRecsLoop (f : Nat → Bool) (now : Int) (u r : Nat) :
    Nat → DBState → List MatchedJob → Except Unit DBState
  | k, s, [] => if f k then .error () else .ok s
  | k, s, m :: ms =>
    if f k then .error ()
    else
      match s.jobs.find? (fun j => j.url == m.link) with
      | some j =>
        if f (k + 1) then .error ()
        else storeRecsLoop f now u r (k + 2) (upsertRec s u r j.id m) ms
      | none =>
        if f (k + 1) then .error ()
        else
          let jid := s.nextId
          let s1 := insertJob s now m
          if f (k + 2) then .error ()
          else storeRecsLoop f now u r (k + 3) (upsertRec s1 u r jid m) ms

/-- Is `rec` a row of a `(user, resume)` pair *other* than
`(u, r)`?  The negation of the `WHERE` clause of the opening
`DELETE`. -/
def otherKey (u r : Nat) (rec : RecRow) : Bool :=
  !(decide (rec.user_id = u) && decide (rec.resume_id = r))

/-- `JobRecommendationService.storeRecommendations`: one
transaction that deletes the prior rows of `(u, r)` (query 0), runs
the per-match loop, and commits; any thrown query rolls the whole
transaction back, leaving the caller-visible state untouched. -/
def storeRecommendations (f : Nat → Bool) (now : Int) (u r : Nat)
    (matchList : List MatchedJob) (s0 : DBState) :
    Except Unit Unit × DBState :=
  if f 0 then (.error (), s0)
  else
    let s1 := { s0 with recs := s0.recs.filter (otherKey u r) }
    match storeRecsLoop f now u r 1 s1 matchList with
    | .ok s2 => (.ok (), s2)
    | .error _ => (.error (), s0)

/-! Lemmas about deduplication (claim C3). -/

theorem dedupJobsAux_sublist :
    ∀ (jobs : List JoobleJob) (seen : List String),
      List.Sublist (dedupJobsAux seen jobs) jobs := by
  intro jobs
  induction jobs with
  | nil => intro seen; simp [dedupJobsAux]
  | cons j js ih =>
    intro seen
    by_cases h : j.link ∈ seen
    · simp only [dedupJobsAux, if_pos h]
      exact (ih seen).trans (List.sublist_cons_self j js)
    · simp only [dedupJobsAux, if_neg h]
      exact (ih (j.link :: seen)).cons₂ j

theorem link_not_mem_of_mem_dedupJobsAux :
    ∀ (jobs : List JoobleJob) (seen : List String) (j : JoobleJob),
      j ∈ dedupJobsAux seen jobs → j.link ∉ seen := by
  intro jobs
  induction jobs with
  | nil => intro seen j hj; simp [dedupJobsAux] at hj
  | cons x js ih =>
    intro seen j hj
    by_cases h : x.link ∈ seen
    · simp only [dedupJobsAux, if_pos h] at hj
      exact ih seen j hj
    · simp only [dedupJobsAux, if_neg h, List.mem_cons] at hj
      rcases hj with rfl | hj
      · exact h
      · have := ih (x.link :: seen) j hj
        intro hs
        exact this (List.mem_cons_of_mem _ hs)

theorem find?_dedupJobsAux :
    ∀ (jobs : List JoobleJob) (seen : List String) (j : JoobleJob),
      j ∈ dedupJobsAux seen jobs →
      jobs.find? (fun x => x.link == j.link) = some j := by
  intro jobs
  induction jobs with
  | nil => intro seen j hj; simp [dedupJobsAux] at hj
  | cons x js ih =>
    intro seen j hj
    by_cases h : x.link ∈ seen
    · simp only [dedupJobsAux, if_pos h] at hj
      have hne : x.link ≠ j.link := by
        intro he
        exact link_not_mem_of_mem_dedupJobsAux js seen j hj (he ▸ h)
      rw [List.find?_cons_of_neg _ (by simpa using hne)]
      exact ih seen j hj
    · simp only [dedupJobsAux, if_neg h, List.mem_cons] at hj
      rcases hj with rfl | hj
      · rw [List.find?_cons_of_pos _ (by simp)]
      · have hnotin := link_not_mem_of_mem_dedupJobsAux js (x.link :: seen) j hj
        have hne : x.link ≠ j.link := by
          intro he
          exact hnotin (he ▸ List.mem_cons_self _ _)
        rw [List.find?_cons_of_neg _ (by simpa using hne)]
        exact ih (x.link :: seen) j hj

theorem countP_dedupJobsAux_seen :
    ∀ (jobs : List JoobleJob) (seen : List String) (u : String), u ∈ seen →
      (dedupJobsAux seen jobs).countP (fun x => x.link == u) = 0 := by
  intro jobs
  induction jobs with
  | nil => intro seen u _; simp [dedupJobsAux]
  | cons x js ih =>
    intro seen u hu
    by_cases h : x.link ∈ seen
    · simp only [dedupJobsAux, if_pos h]
      exact ih seen u hu
    · have hne : (x.link == u) = false := by
        simp only [beq_eq_false_iff_ne, ne_eq]
        intro he
        exact h (he ▸ hu)
      simp only [dedupJobsAux, if_neg h, List.countP_cons, hne]
      simpa using ih (x.link :: seen) u (List.mem_cons_of_mem _ hu)

theorem countP_dedupJobsAux_mem :
    ∀ (jobs : List JoobleJob) (seen : List String) (u : String), u ∉ seen →
      (∃ j ∈ jobs, j.link = u) →
      (dedupJobsAux seen jobs).countP (fun x => x.link == u) = 1 := by
  intro jobs
  induction jobs with
  | nil => intro seen u _ hex; simp at hex
  | cons x js ih =>
    intro seen u hu hex
    by_cases h : x.link ∈ seen
    · simp only [dedupJobsAux, if_pos h]
      rcases hex with ⟨j, hj, hlink⟩
      rcases List.mem_cons.mp hj with rfl | hjs
      · exact absurd (hlink ▸ h) hu
      · exact ih seen u hu ⟨j, hjs, hlink⟩
    · by_cases hxu : x.link = u
      · simp only [dedupJobsAux, if_neg h, List.countP_cons]
        have ht : (x.link == u) = true := by simpa using hxu
        rw [ht, countP_dedupJobsAux_seen js (x.link :: seen) u (by simp [hxu])]
        simp
      · simp only [dedupJobsAux, if_neg h, List.countP_cons]
        have hne : (x.link == u) = false := by simpa using hxu
        rw [hne]
        rcases hex with ⟨j, hj, hlink⟩
        rcases List.mem_cons.mp hj with rfl | hjs
        · exact absurd hlink hxu
        · have hu' : u ∉ x.link :: seen := by
            intro hmem
            rcases List.mem_cons.mp hmem with he | hs
            · exact hxu he.symm
            · exact hu hs
          simpa using ih (x.link :: seen) u hu' ⟨j, hjs, hlink⟩

/-- C3: `deduplicateJobs` keeps, for every URL present in the
input, exactly one job; the kept job is the first-occurring one
with that URL (`find?` on the input returns it, so first-seen field
values win), and the output is a sublist of the input, so the
relative order of first appearances is preserved. -/
theorem deduplicateJobs_first_seen_wins (jobs : List JoobleJob) :
    List.Sublist (deduplicateJobs jobs) jobs ∧
    (∀ u : String, (∃ j ∈ jobs, j.link = u) →
      (deduplicateJobs jobs).countP (fun x => x.link == u) = 1) ∧
    (∀ j ∈ deduplicateJobs jobs,
      jobs.find? (fun x => x.link == j.link) = some j) := by
  refine ⟨dedupJobsAux_sublist jobs [], ?_, ?_⟩
  · intro u hex
    exact countP_dedupJobsAux_mem jobs [] u (by simp) hex
  · intro j hj
    exact find?_dedupJobsAux jobs [] j hj

/-! Lemmas about the call budget (claims C1, C2). -/

/-- Closed form of the counter transition of one `searchJobs`
call. -/
theorem searchJobs_fst (env : SearchEnv) (c : Nat) (p : JoobleSearchParams) :
    (searchJobs env c p).1 =
      if API_LIMIT ≤ c then c
      else
        match env.provider with
        | .ok _ => c + 1
        | .err => c := by
  by_cases h : API_LIMIT ≤ c
  · simp [searchJobs, searchJobsTry, ge_iff_le, h]
  · cases hp : env.provider with
    | ok resp =>
      by_cases hs : env.storeOk <;>
        simp [searchJobs, searchJobsTry, ge_iff_le, h, hp, hs]
    | err => simp [searchJobs, searchJobsTry, ge_iff_le, h, hp]

theorem searchJobs_fst_le (env : SearchEnv) (c : Nat)
    (p : JoobleSearchParams) (h : c ≤ API_LIMIT) :
    (searchJobs env c p).1 ≤ API_LIMIT := by
  rw [searchJobs_fst]
  by_cases hc : API_LIMIT ≤ c
  · simpa [hc] using h
  · cases hp : env.provider <;> simp [hc] <;> omega

theorem runSearchCalls_le :
    ∀ (calls : List (SearchEnv × JoobleSearchParams)) (c : Nat),
      c ≤ API_LIMIT → runSearchCalls c calls ≤ API_LIMIT := by
  intro calls
  induction calls with
  | nil => intro c h; simpa [runSearchCalls] using h
  | cons step rest ih =>
    intro c h
    simp only [runSearchCalls]
    exact ih _ (searchJobs_fst_le step.1 c step.2 h)

theorem searchJobs_at_limit (env : SearchEnv) (c : Nat)
    (p : JoobleSearchParams) (h : API_LIMIT ≤ c) :
    searchJobs env c p = (c, getJobsFromDatabase env p) := by
  simp [searchJobs, searchJobsTry, ge_iff_le, h]

/-- C1: the `apiCallCount` counter is monotone and grows by at most
one per `searchJobs` call; it stays unchanged when the provider
call fails; starting below `API_LIMIT` it never exceeds
`API_LIMIT`, and over any whole call sequence from process start it
stays within the budget; once at the limit, a call skips the
provider and serves the cache result with the counter (and hence
the reported `apiCallsUsed`) pinned at the limit. -/
theorem apiBudget_invariant :
    (∀ (env : SearchEnv) (c : Nat) (p : JoobleSearchParams),
      c ≤ (searchJobs env c p).1) ∧
    (∀ (env : SearchEnv) (c : Nat) (p : JoobleSearchParams),
      (searchJobs env c p).1 ≤ c + 1) ∧
    (∀ (env : SearchEnv) (c : Nat) (p : JoobleSearchParams),
      env.provider = ProviderResult.err → (searchJobs env c p).1 = c) ∧
    (∀ (env : SearchEnv) (c : Nat) (p : JoobleSearchParams),
      c ≤ API_LIMIT → (searchJobs env c p).1 ≤ API_LIMIT) ∧
    (∀ calls : List (SearchEnv × JoobleSearchParams),
      runSearchCalls 0 calls ≤ API_LIMIT) ∧
    (∀ (env : SearchEnv) (c : Nat) (p : JoobleSearchParams),
      API_LIMIT ≤ c → searchJobs env c p = (c, getJobsFromDatabase env p)) ∧
    (∀ (env : RecEnv) (a : ResumeAnalysis) (fl : Filters),
      (getRecommendedJobs env API_LIMIT a fl).1.apiCallsUsed = API_LIMIT) := by
  refine ⟨?_, ?_, ?_, searchJobs_fst_le, ?_, searchJobs_at_limit, ?_⟩
  · intro env c p
    rw [searchJobs_fst]
    by_cases hc : API_LIMIT ≤ c
    · simp [hc]
    · cases hp : env.provider <;> simp [hc]
  · intro env c p
    rw [searchJobs_fst]
    by_cases hc : API_LIMIT ≤ c
    · simp [hc]
    · cases hp : env.provider <;> simp [hc]
  · intro env c p hp
    rw [searchJobs_fst, hp]
    by_cases hc : API_LIMIT ≤ c <;> simp [hc]
  · intro calls
    exact runSearchCalls_le calls 0 (by simp [API_LIMIT])
  · intro env a fl
    simp only [getRecommendedJobs]
    split
    · rfl
    · simp [searchJobs_fst]

/-- Environment for the budget witnesses: failing provider, failing
cache query. -/
def wEnvErr : SearchEnv :=
  { provider := .err, cacheDb := .error (), storeOk := true }

/-- Environment with a succeeding provider call. -/
def wEnvOk : SearchEnv :=
  { provider := .ok { totalCount := 1, jobs := [{ title := "X", link := "https://x" }] }
    cacheDb := .ok [], storeOk := true }

/-- Witness for C1: at the limit, a concrete call leaves the
counter at the limit and serves the cache result. -/
theorem apiBudget_invariant_witness :
    searchJobs wEnvOk API_LIMIT {} =
      (API_LIMIT, getJobsFromDatabase wEnvOk {}) :=
  apiBudget_invariant.2.2.2.2.2.1 wEnvOk API_LIMIT {} (le_refl _)

/-- C2: `searchJobs` recovers every provider error locally: when
the provider call fails it returns the cache-filtered result with
the budget counter unchanged, and when the cache query itself also
fails the result is the empty response with a zero count — in
every case a plain value is returned, nothing is thrown past the
service boundary. -/
theorem searchJobs_error_fallback :
    (∀ (env : SearchEnv) (c : Nat) (p : JoobleSearchParams),
      env.provider = ProviderResult.err →
      searchJobs env c p = (c, getJobsFromDatabase env p)) ∧
    (∀ (env : SearchEnv) (p : JoobleSearchParams),
      env.cacheDb = Except.error () →
      getJobsFromDatabase env p = { totalCount := 0, jobs := [] }) ∧
    (∀ (env : SearchEnv) (c : Nat) (p : JoobleSearchParams),
      env.provider = ProviderResult.err →
      env.cacheDb = Except.error () →
      searchJobs env c p = (c, { totalCount := 0, jobs := [] })) := by
  have hdb : ∀ (env : SearchEnv) (p : JoobleSearchParams),
      env.cacheDb = Except.error () →
      getJobsFromDatabase env p = { totalCount := 0, jobs := [] } := by
    intro env p hc
    simp [getJobsFromDatabase, getJobsFromDatabaseTry, hc]
  have hmain : ∀ (env : SearchEnv) (c : Nat) (p : JoobleSearchParams),
      env.provider = ProviderResult.err →
      searchJobs env c p = (c, getJobsFromDatabase env p) := by
    intro env c p hp
    by_cases hc : API_LIMIT ≤ c
    · exact searchJobs_at_limit env c p hc
    · simp [searchJobs, searchJobsTry, ge_iff_le, hc, hp]
  refine ⟨hmain, hdb, ?_⟩
  intro env c p hp hc
  rw [hmain env c p hp, hdb env p hc]

/-- Witness for C2: a concrete call with both the provider and the
cache failing returns the empty response. -/
theorem searchJobs_error_fallback_witness :
    searchJobs wEnvErr 3 {} = (3, { totalCount := 0, jobs := [] }) :=
  searchJobs_error_fallback.2.2 wEnvErr 3 {} rfl rfl

/-- Concrete duplicate-bearing input for the C3 witness. -/
def c3jobA : JoobleJob := { title := "First A", link := "https://a" }

/-- Second job of the C3 witness input. -/
def c3jobB : JoobleJob := { title := "B", link := "https://b" }

/-- Duplicate of `c3jobA`'s URL with different field values. -/
def c3jobA2 : JoobleJob := { title := "Second A", link := "https://a" }

/-- Witness for C3: on a concrete list with a duplicated URL, the
URL is kept exactly once. -/
theorem deduplicateJobs_first_seen_wins_witness :
    (deduplicateJobs [c3jobA, c3jobB, c3jobA2]).countP
      (fun x => x.link == "https://a") = 1 :=
  (deduplicateJobs_first_seen_wins [c3jobA, c3jobB, c3jobA2]).2.1
    "https://a" ⟨c3jobA, by simp, rfl⟩

/-! Lemmas about the rule-based score (claims C5, C10). -/

/-- The accumulated score of `calculateMatchScore` written as the
closed formula of the specification. -/
theorem calculateMatchScore_eq_formula (now : Int) (job : JoobleJob)
    (a : ResumeAnalysis) :
    calculateMatchScore now job a =
      min 100 (40 * matchedTechnicalSkillsRatio job a +
        15 * matchedSoftSkillsRatio job a + 20 * (a.score / 100) +
        freshnessPoints now job.updated +
        (if hasSalary job then 10 else 0)) := by
  rcases hs : a.skills with _ | (⟨tech, soft⟩ | l)
  · simp only [calculateMatchScore, matchedTechnicalSkillsRatio,
      matchedSoftSkillsRatio, matchedTechSkills, matchedSoftSkills,
      techSkillsOf, softSkillsOf, hs]
    norm_num
    congr 1
    ring
  · rcases tech with _ | tl <;> rcases soft with _ | sl <;>
      simp only [calculateMatchScore, matchedTechnicalSkillsRatio,
        matchedSoftSkillsRatio, matchedTechSkills, matchedSoftSkills,
        techSkillsOf, softSkillsOf, hs] <;>
      [skip; by_cases hso : sl.length = 0; by_cases hte : tl.flatten.length = 0;
       (by_cases hte : tl.flatten.length = 0 <;> by_cases hso : sl.length = 0)] <;>
      simp_all [Nat.pos_iff_ne_zero] <;> congr 1 <;> ring
  · simp only [calculateMatchScore, matchedTechnicalSkillsRatio,
      matchedSoftSkillsRatio, matchedTechSkills, matchedSoftSkills,
      techSkillsOf, softSkillsOf, hs]
    norm_num
    congr 1
    ring

/-- C5: the rule-based match score is exactly 40 times the matched
technical-skill ratio, plus 15 times the matched soft-skill ratio,
plus 20 times `atsScore/100`, plus the freshness band, plus 10 for
a present salary, clamped to at most 100. -/
theorem calculateMatchScore_formula (now : Int) (job : JoobleJob)
    (a : ResumeAnalysis) :
    calculateMatchScore now job a =
      min 100 (40 * matchedTechnicalSkillsRatio job a +
        15 * matchedSoftSkillsRatio job a + 20 * (a.score / 100) +
        freshnessPoints now job.updated +
        (if hasSalary job then 10 else 0)) :=
  calculateMatchScore_eq_formula now job a

theorem freshnessPoints_ge_four (now : Int) (u : Option Int) :
    4 ≤ freshnessPoints now u := by
  rcases u with _ | t
  · simp [freshnessPoints]
  · simp only [freshnessPoints]
    split <;> norm_num
    split <;> norm_num
    split <;> norm_num

theorem matchedTechnicalSkillsRatio_nonneg (job : JoobleJob)
    (a : ResumeAnalysis) : 0 ≤ matchedTechnicalSkillsRatio job a := by
  unfold matchedTechnicalSkillsRatio
  split
  · exact le_refl 0
  · positivity

theorem matchedSoftSkillsRatio_nonneg (job : JoobleJob)
    (a : ResumeAnalysis) : 0 ≤ matchedSoftSkillsRatio job a := by
  unfold matchedSoftSkillsRatio
  split
  · exact le_refl 0
  · positivity

/-- C10 (implicit): postings older than 30 days, and postings whose
`updated` field does not parse as a date, still receive the
4-point freshness band, and for any analysis with an ATS score in
`[0, 100]` the rule-based match score is at least
`4 + 20·(atsScore/100)` — in particular it is never zero. -/
theorem calculateMatchScore_lower_bound :
    (∀ now : Int, freshnessPoints now none = 4) ∧
    (∀ (now t : Int), 30 < daysOld now t →
      freshnessPoints now (some t) = 4) ∧
    (∀ (now : Int) (job : JoobleJob) (a : ResumeAnalysis),
      0 ≤ a.score → a.score ≤ 100 →
      4 + 20 * (a.score / 100) ≤ calculateMatchScore now job a ∧
      0 < calculateMatchScore now job a) := by
  refine ⟨fun now => rfl, ?_, ?_⟩
  · intro now t h
    have h7 : ¬ daysOld now t ≤ 7 := by linarith
    have h14 : ¬ daysOld now t ≤ 14 := by linarith
    have h30 : ¬ daysOld now t ≤ 30 := by linarith
    simp [freshnessPoints, h7, h14, h30]
  · intro now job a h0 h100
    have hb1 : (4 : ℚ) + 20 * (a.score / 100) ≤ 100 := by linarith
    have hsal : (0 : ℚ) ≤ (if hasSalary job then (10 : ℚ) else 0) := by
      split <;> norm_num
    have hsum : 4 + 20 * (a.score / 100) ≤
        40 * matchedTechnicalSkillsRatio job a +
        15 * matchedSoftSkillsRatio job a + 20 * (a.score / 100) +
        freshnessPoints now job.updated +
        (if hasSalary job then 10 else 0) := by
      have ht := matchedTechnicalSkillsRatio_nonneg job a
      have hs := matchedSoftSkillsRatio_nonneg job a
      have hf := freshnessPoints_ge_four now job.updated
      linarith
    have hmain : 4 + 20 * (a.score / 100) ≤ calculateMatchScore now job a := by
      rw [calculateMatchScore_eq_formula]
      exact le_min hb1 hsum
    refine ⟨hmain, lt_of_lt_of_le ?_ hmain⟩
    nlinarith

/-- Witness for C10 at a concrete over-30-days-old salary-less
posting and an analysis with ATS score 50. -/
theorem calculateMatchScore_lower_bound_witness :
    4 + 20 * ((50 : ℚ) / 100) ≤
      calculateMatchScore (40 * 86400000)
        { title := "Old", link := "https://old", updated := some 0 }
        { score := 50 } :=
  (calculateMatchScore_lower_bound.2.2 (40 * 86400000)
    { title := "Old", link := "https://old", updated := some 0 }
    { score := 50 } (by norm_num) (by norm_num)).1

/-! Lemmas about post-processing of scored matches (claim C4). -/

/-- The freshness-keep predicate holds exactly on postings no older
than `d` days (boundary included); an unparseable date never
passes. -/
theorem withinDays_iff (now d : Int) (m : MatchedJob) :
    withinDays now d m = true ↔
      ∃ t, m.updated = some t ∧ daysOld now t ≤ (d : ℚ) := by
  unfold withinDays
  rcases hu : m.updated with _ | t
  · simp [hu]
  · simp only [hu, decide_eq_true_eq]
    have hpos : (0 : ℚ) < ((msPerDay : Int) : ℚ) := by
      norm_num [msPerDay]
    constructor
    · intro h
      refine ⟨t, rfl, ?_⟩
      unfold daysOld
      rw [div_le_iff₀ hpos]
      have hint : (now - t : Int) ≤ d * msPerDay := by omega
      calc ((now - t : Int) : ℚ) ≤ ((d * msPerDay : Int) : ℚ) := by
            exact_mod_cast hint
        _ = (d : ℚ) * ((msPerDay : Int) : ℚ) := by push_cast; ring
    · rintro ⟨t', ht', hle⟩
      rw [show t' = t from by simpa using ht'.symm] at hle
      unfold daysOld at hle
      rw [div_le_iff₀ hpos] at hle
      have hint : ((now - t : Int) : ℚ) ≤ ((d * msPerDay : Int) : ℚ) := by
        calc ((now - t : Int) : ℚ) ≤ (d : ℚ) * ((msPerDay : Int) : ℚ) := hle
          _ = ((d * msPerDay : Int) : ℚ) := by push_cast; ring
      have hint2 : (now - t : Int) ≤ d * msPerDay := by exact_mod_cast hint
      omega

/-- C4 (amended): the post-processed match list is sorted
descending by `matchScore`, holds at most 20 entries, contains only
matches at or above `min_match_score` when that filter is given
*with a nonzero value*, and only postings no older than
`days_posted` days (boundary days kept exactly) when that filter is
given *with a nonzero value*; a zero filter value is falsy in
JavaScript and disables the corresponding filter. -/
theorem filterAndSortMatches_spec (now : Int) (ml : List MatchedJob)
    (filters : Filters) :
    (filterAndSortMatches now ml filters).Sorted scoreDescR ∧
    (filterAndSortMatches now ml filters).length ≤ 20 ∧
    (∀ s, filters.min_match_score = some s → s ≠ 0 →
      ∀ m ∈ filterAndSortMatches now ml filters, s ≤ m.matchScore) ∧
    (∀ d, filters.days_posted = some d → d ≠ 0 →
      ∀ m ∈ filterAndSortMatches now ml filters,
        ∃ t, m.updated = some t ∧ daysOld now t ≤ (d : ℚ)) := by
  refine ⟨?_, ?_, ?_, ?_⟩
  · exact List.Pairwise.sublist (List.take_sublist 20 _)
      (List.sorted_insertionSort scoreDescR _)
  · simp only [filterAndSortMatches]
    exact List.length_take_le _ _
  · intro s hmin hs0 m hm
    simp only [filterAndSortMatches, hmin, if_pos hs0] at hm
    have hm2 := List.mem_of_mem_take hm
    rw [List.mem_insertionSort] at hm2
    have hm3 : m ∈ ml.filter (fun m : MatchedJob =>
        decide (s ≤ m.matchScore)) := by
      rcases hd : filters.days_posted with _ | d
      · rw [hd] at hm2
        exact hm2
      · rw [hd] at hm2
        dsimp only at hm2
        by_cases hd0 : d ≠ 0
        · rw [if_pos hd0] at hm2
          exact List.mem_of_mem_filter hm2
        · rw [if_neg hd0] at hm2
          exact hm2
    simpa using List.of_mem_filter hm3
  · intro d hd hd0 m hm
    simp only [filterAndSortMatches, hd, if_pos hd0] at hm
    have hm2 := List.mem_of_mem_take hm
    rw [List.mem_insertionSort] at hm2
    exact (withinDays_iff now d m).mp (List.of_mem_filter hm2)

/-- Posting used by the C4 counterexample: scored 50, posted at the
epoch. -/
def c4match : MatchedJob :=
  { link := "https://c4", updated := some 0, matchScore := 50 }

/-- Filter object of the C4 counterexample: `days_posted` *given*
but zero. -/
def c4filters : Filters := { days_posted := some 0 }

/-- Instant of the C4 counterexample: ten days after the epoch. -/
def c4now : Int := 864000000

/-- Counterexample to C4 as stated: with the `days_posted` filter
given as `0`, the output still contains a posting ten days old —
JavaScript numeric truthiness skips the freshness filter entirely,
so "only postings no older than `days_posted` days when that filter
is given" is false. -/
theorem filterAndSortMatches_counterexample :
    ¬ (∀ m ∈ filterAndSortMatches c4now [c4match] c4filters,
        ∃ t, m.updated = some t ∧ daysOld c4now t ≤ ((0 : Int) : ℚ)) := by
  intro h
  have he : filterAndSortMatches c4now [c4match] c4filters = [c4match] := rfl
  rcases h c4match (by rw [he]; exact List.mem_singleton_self _) with
    ⟨t, ht, hle⟩
  obtain rfl : t = 0 := by simpa [c4match] using ht.symm
  norm_num [daysOld, c4now, msPerDay] at hle

/-- Match for the C4 witness. -/
def c4wmatch : MatchedJob := { matchScore := 50, updated := some 0 }

/-- Filters for the C4 witness: a nonzero minimum score. -/
def c4wfilters : Filters := { min_match_score := some 30 }

/-- Witness for the amended C4 at a concrete input: the surviving
match respects the nonzero minimum-score filter. -/
theorem filterAndSortMatches_spec_witness :
    (30 : ℚ) ≤ c4wmatch.matchScore :=
  (filterAndSortMatches_spec 0 [c4wmatch] c4wfilters).2.2.1 30 rfl
    (by norm_num) c4wmatch
    (by rw [show filterAndSortMatches 0 [c4wmatch] c4wfilters = [c4wmatch]
          by decide]
        exact List.mem_singleton_self _)

/-! Lemmas about keyword extraction (claim C9). -/

theorem mem_dedupFirstAux :
    ∀ (xs : List String) (seen : List String) (x : String),
      x ∈ dedupFirstAux seen xs → x ∈ xs ∧ x ∉ seen := by
  intro xs
  induction xs with
  | nil => intro seen x hx; simp [dedupFirstAux] at hx
  | cons y ys ih =>
    intro seen x hx
    by_cases h : y ∈ seen
    · simp only [dedupFirstAux, if_pos h] at hx
      rcases ih seen x hx with ⟨h1, h2⟩
      exact ⟨List.mem_cons_of_mem _ h1, h2⟩
    · simp only [dedupFirstAux, if_neg h, List.mem_cons] at hx
      rcases hx with rfl | hx
      · exact ⟨List.mem_cons_self _ _, h⟩
      · rcases ih (y :: seen) x hx with ⟨h1, h2⟩
        refine ⟨List.mem_cons_of_mem _ h1, fun hs => h2 ?_⟩
        exact List.mem_cons_of_mem _ hs

theorem nodup_dedupFirstAux :
    ∀ (xs : List String) (seen : List String),
      (dedupFirstAux seen xs).Nodup := by
  intro xs
  induction xs with
  | nil => intro seen; simp [dedupFirstAux]
  | cons y ys ih =>
    intro seen
    by_cases h : y ∈ seen
    · simp only [dedupFirstAux, if_pos h]
      exact ih seen
    · simp only [dedupFirstAux, if_neg h]
      refine List.Nodup.cons (fun hy => ?_) (ih (y :: seen))
      exact (mem_dedupFirstAux ys (y :: seen) y hy).2
        (List.mem_cons_self _ _)

theorem mem_selectedSkills_subset (a : ResumeAnalysis) (k : String)
    (hk : k ∈ selectedSkills a) : k ∈ uniqueKeywords a := by
  unfold selectedSkills at hk
  simp only [List.mem_append] at hk
  rcases hk with (((((((((h | h) | h) | h) | h) | h) | h) | h) | h) | h) | h
  all_goals
    first
    | exact List.mem_of_mem_filter h
    | exact List.mem_of_mem_filter (List.mem_of_mem_take h)

/-- C9 (amended): the extractor's final keyword list is
deduplicated *by exact string identity* and free of empty or
whitespace-only strings, but each kept keyword is a verbatim input
skill — the code never lower-cases or trims the kept strings, so
two skills differing only in case or surrounding whitespace yield
*two* output keywords. -/
theorem finalKeywords_spec (a : ResumeAnalysis) :
    (finalKeywords a).Nodup ∧
    (∀ k ∈ finalKeywords a, k ∈ gatherKeywords a ∧ jsTrim k ≠ "") := by
  constructor
  · exact nodup_dedupFirstAux (selectedSkills a) []
  · intro k hk
    have h1 : k ∈ selectedSkills a :=
      (mem_dedupFirstAux (selectedSkills a) [] k hk).1
    have h2 : k ∈ (gatherKeywords a).filter (fun k => jsTrim k ≠ "") := by
      have := mem_selectedSkills_subset a k h1
      unfold uniqueKeywords at this
      exact (mem_dedupFirstAux _ [] k this).1
    exact ⟨List.mem_of_mem_filter h2, by simpa using List.of_mem_filter h2⟩

/-- The analysis of the C9 counterexample: two skills differing
only in case. -/
def c9analysis : ResumeAnalysis :=
  { extractedInfo := some { skills := ["Python", "python"] } }

/-- Counterexample to C9 as stated: the two case-variant input
skills survive as *two distinct* output keywords, and the kept
keyword `"Python"` is not lower-cased. -/
theorem finalKeywords_counterexample :
    finalKeywords c9analysis = ["Python", "python"] ∧
    ¬ (∀ k ∈ finalKeywords c9analysis, strLower k = k) := by
  constructor
  · decide
  · intro h
    have := h "Python" (by decide)
    revert this
    decide

/-- Witness for the amended C9 at the concrete two-skill input. -/
theorem finalKeywords_spec_witness :
    "Python" ∈ gatherKeywords c9analysis ∧ jsTrim "Python" ≠ "" :=
  (finalKeywords_spec c9analysis).2 "Python" (by decide)

/-! Lemmas about the validation gate (claim C6). -/

theorem validateResumeFormat_invalid (a : ResumeAnalysis)
    (h : passedChecks a < 3) :
    (validateResumeFormat a).isValid = false ∧
    (validateResumeFormat a).reason ≠ "" := by
  unfold validateResumeFormat
  rcases hi : a.extractedInfo with _ | info
  · dsimp only
    exact ⟨rfl, by decide⟩
  · unfold passedChecks at h
    rw [hi] at h
    simp only [Option.getD] at h
    dsimp only
    rw [if_pos h]
    exact ⟨rfl, by decide⟩

/-- C6: an analysis failing at least 3 of the 5 structural checks
is rejected by `getRecommendedJobs` — `success = false`, a
non-empty human-readable reason, the call counter untouched and the
job-search stage never reached; in particular an analysis with a
single skill, no sections and no contact information is always
rejected this way. -/
theorem getRecommendedJobs_rejects_invalid :
    (∀ (env : RecEnv) (c : Nat) (a : ResumeAnalysis) (fl : Filters),
      passedChecks a < 3 →
      (getRecommendedJobs env c a fl).1.success = false ∧
      (getRecommendedJobs env c a fl).1.error =
        some (validateResumeFormat a).reason ∧
      (validateResumeFormat a).reason ≠ "" ∧
      (getRecommendedJobs env c a fl).2 = (c, false)) ∧
    (∀ (env : RecEnv) (c : Nat) (a : ResumeAnalysis) (fl : Filters)
      (info : ExtractedInfo),
      a.extractedInfo = some info → info.skills.length = 1 →
      info.sections = [] → info.has_contact = false → info.email = "" →
      info.phone = "" →
      (getRecommendedJobs env c a fl).1.success = false ∧
      (getRecommendedJobs env c a fl).2 = (c, false)) := by
  have hmain : ∀ (env : RecEnv) (c : Nat) (a : ResumeAnalysis)
      (fl : Filters), passedChecks a < 3 →
      (getRecommendedJobs env c a fl).1.success = false ∧
      (getRecommendedJobs env c a fl).1.error =
        some (validateResumeFormat a).reason ∧
      (validateResumeFormat a).reason ≠ "" ∧
      (getRecommendedJobs env c a fl).2 = (c, false) := by
    intro env c a fl h
    rcases validateResumeFormat_invalid a h with ⟨hv, hr⟩
    simp only [getRecommendedJobs, hv]
    exact ⟨rfl, rfl, hr, rfl⟩
  refine ⟨hmain, ?_⟩
  intro env c a fl info hi hskills hsections hcontact hemail hphone
  have hlt : passedChecks a < 3 := by
    unfold passedChecks formatChecks
    rw [hi]
    simp only [Option.getD]
    have e1 : decide (info.skills.length ≥ 3) = false := by simp [hskills]
    have e2 : decide (info.sections.length ≥ 2) = false := by
      simp [hsections]
    have e3 : (info.has_contact || decide (info.email ≠ "") ||
        decide (info.phone ≠ "")) = false := by
      simp [hcontact, hemail, hphone]
    rw [e1, e2, e3]
    cases hb4 : (decide (info.work_experience.length > 0) ||
        decide (info.education.length > 0)) <;>
      cases hb5 : (decide (200 ≤ effectiveWordCount a info) &&
        decide (effectiveWordCount a info ≤ 2000)) <;>
      simp
  rcases hmain env c a fl hlt with ⟨h1, _, _, h2⟩
  exact ⟨h1, h2⟩

/-- Environment used by the C6 and C8 witnesses: failing provider,
empty cache, failing oracle. -/
def c6env : RecEnv :=
  { search := { provider := .err, cacheDb := .ok [], storeOk := true }
    oracle := .error ()
    now := 0 }

/-- Analysis of the C6 witness: one skill, no sections, no
contact. -/
def c6analysis : ResumeAnalysis :=
  { extractedInfo := some { skills := ["python"] } }

/-- Witness for C6 at the concrete one-skill analysis. -/
theorem getRecommendedJobs_rejects_invalid_witness :
    (getRecommendedJobs c6env 7 c6analysis {}).1.success = false ∧
    (getRecommendedJobs c6env 7 c6analysis {}).2 = (7, false) :=
  getRecommendedJobs_rejects_invalid.2 c6env 7 c6analysis {}
    { skills := ["python"] } rfl rfl rfl rfl rfl rfl

/-! Lemmas about the matching fallback (claim C8). -/

/-- C8: whenever the ML oracle call throws, or answers with
`success = false`, a missing match array, or an empty match array,
`calculateJobMatches` returns exactly the filtered-and-sorted
rule-based match list — the oracle failure never surfaces as an
error. -/
theorem calculateJobMatches_fallback :
    ∀ (oracle : Except Unit OracleResp) (now : Int)
      (jobs : List JoobleJob) (a : ResumeAnalysis) (fl : Filters),
      (oracle = .error () ∨
        ∃ resp, oracle = .ok resp ∧
          (resp.success = false ∨ resp.matchList = none ∨
            resp.matchList = some [])) →
      calculateJobMatches oracle now jobs a fl =
        filterAndSortMatches now (ruleBasedMatches now jobs a) fl := by
  intro oracle now jobs a fl h
  have hml : calculateMLMatches oracle jobs = [] := by
    rcases h with rfl | ⟨resp, rfl, hr⟩
    · rfl
    · rcases hr with hs | hm | hm
      · simp [calculateMLMatches, hs]
      · cases hsucc : resp.success <;>
          simp [calculateMLMatches, hm, hsucc]
      · cases hsucc : resp.success <;>
          simp [calculateMLMatches, hm, hsucc, List.zipWith_nil_right]
  simp [calculateJobMatches, hml]

/-- Witness for C8: with a thrown oracle call and one concrete job,
the result is the rule-based ranking. -/
theorem calculateJobMatches_fallback_witness :
    calculateJobMatches (Except.error ()) 0 [c3jobA] c9analysis {} =
      filterAndSortMatches 0 (ruleBasedMatches 0 [c3jobA] c9analysis) {} :=
  calculateJobMatches_fallback (Except.error ()) 0 [c3jobA] c9analysis {}
    (Or.inl rfl)

/-! Lemmas about the recommendation transaction (claim C7). -/

theorem upsertRec_jobs (s : DBState) (u r jid : Nat) (m : MatchedJob) :
    (upsertRec s u r jid m).jobs = s.jobs := by
  unfold upsertRec
  split <;> rfl

theorem storeRecsLoop_jobs_mono :
    ∀ (ms : List MatchedJob) (f : Nat → Bool) (now : Int) (u r k : Nat)
      (s s' : DBState), storeRecsLoop f now u r k s ms = .ok s' →
      ∀ j ∈ s.jobs, j ∈ s'.jobs := by
  intro ms
  induction ms with
  | nil =>
    intro f now u r k s s' hok j hj
    simp only [storeRecsLoop] at hok
    by_cases hf : f k
    · simp [hf] at hok
    · simp only [if_neg hf, Except.ok.injEq] at hok
      exact hok ▸ hj
  | cons m ms ih =>
    intro f now u r k s s' hok j hj
    simp only [storeRecsLoop] at hok
    by_cases hf : f k
    · simp [hf] at hok
    · rw [if_neg hf] at hok
      rcases hfind : s.jobs.find? (fun jr => jr.url == m.link) with _ | jr
      all_goals rw [hfind] at hok
      all_goals dsimp only at hok
      · by_cases h1 : f (k + 1)
        · simp [h1] at hok
        · rw [if_neg h1] at hok
          by_cases h2 : f (k + 2)
          · simp [h2] at hok
          · rw [if_neg h2] at hok
            refine ih f now u r (k + 3) _ s' hok j ?_
            rw [upsertRec_jobs]
            unfold insertJob
            exact List.mem_append_left _ hj
      · by_cases h1 : f (k + 1)
        · simp [h1] at hok
        · rw [if_neg h1] at hok
          refine ih f now u r (k + 2) _ s' hok j ?_
          rw [upsertRec_jobs]
          exact hj

theorem storeRecsLoop_links :
    ∀ (ms : List MatchedJob) (f : Nat → Bool) (now : Int) (u r k : Nat)
      (s s' : DBState), storeRecsLoop f now u r k s ms = .ok s' →
      ∀ m ∈ ms, ∃ j ∈ s'.jobs, j.url = m.link := by
  intro ms
  induction ms with
  | nil => intro f now u r k s s' _ m hm; simp at hm
  | cons m0 ms ih =>
    intro f now u r k s s' hok m hm
    simp only [storeRecsLoop] at hok
    by_cases hf : f k
    · simp [hf] at hok
    · rw [if_neg hf] at hok
      rcases hfind : s.jobs.find? (fun jr => jr.url == m0.link) with _ | jr
      all_goals rw [hfind] at hok
      all_goals dsimp only at hok
      · by_cases h1 : f (k + 1)
        · simp [h1] at hok
        · rw [if_neg h1] at hok
          by_cases h2 : f (k + 2)
          · simp [h2] at hok
          · rw [if_neg h2] at hok
            rcases List.mem_cons.mp hm with rfl | hm'
            · refine ⟨jobRowOfMatch s now m, ?_, rfl⟩
              refine storeRecsLoop_jobs_mono ms f now u r (k + 3) _ s'
                hok _ ?_
              rw [upsertRec_jobs]
              unfold insertJob
              exact List.mem_append_right _ (List.mem_singleton_self _)
            · exact ih f now u r (k + 3) _ s' hok m hm'
      · by_cases h1 : f (k + 1)
        · simp [h1] at hok
        · rw [if_neg h1] at hok
          rcases List.mem_cons.mp hm with rfl | hm'
          · refine ⟨jr, ?_, ?_⟩
            · refine storeRecsLoop_jobs_mono ms f now u r (k + 2) _ s'
                hok _ ?_
              rw [upsertRec_jobs]
              exact List.mem_of_find?_eq_some hfind
            · simpa using List.find?_some hfind
          · exact ih f now u r (k + 2) _ s' hok m hm'

theorem filter_other_map (u r jid : Nat) (m : MatchedJob) :
    ∀ l : List RecRow,
      (l.map (fun rec => if recKeyed u r jid rec then
          { rec with match_score := m.matchScore,
                     reasons := m.recommendationReasons }
        else rec)).filter (otherKey u r) = l.filter (otherKey u r) := by
  intro l
  induction l with
  | nil => rfl
  | cons x xs ih =>
    simp only [List.map_cons, List.filter_cons]
    by_cases hx : recKeyed u r jid x
    · rw [if_pos hx]
      rcases hx with ⟨h1, h2, _⟩
      have e1 : otherKey u r { x with match_score := m.matchScore, reasons := m.recommendationReasons } = false := by
        simp [otherKey, h1, h2]
      have e2 : otherKey u r x = false := by simp [otherKey, h1, h2]
      rw [e1, e2]
      simpa using ih
    · rw [if_neg hx]
      by_cases ho : otherKey u r x = true <;> simp [ho, ih]

theorem upsertRec_filter_other (s : DBState) (u r jid : Nat)
    (m : MatchedJob) :
    (upsertRec s u r jid m).recs.filter (otherKey u r) =
      s.recs.filter (otherKey u r) := by
  unfold upsertRec
  split
  · exact filter_other_map u r jid m s.recs
  · rw [List.filter_append]
    simp [otherKey]

theorem storeRecsLoop_filter_other :
    ∀ (ms : List MatchedJob) (f : Nat → Bool) (now : Int) (u r k : Nat)
      (s s' : DBState), storeRecsLoop f now u r k s ms = .ok s' →
      s'.recs.filter (otherKey u r) = s.recs.filter (otherKey u r) := by
  intro ms
  induction ms with
  | nil =>
    intro f now u r k s s' hok
    simp only [storeRecsLoop] at hok
    by_cases hf : f k
    · simp [hf] at hok
    · simp only [if_neg hf, Except.ok.injEq] at hok
      rw [hok]
  | cons m ms ih =>
    intro f now u r k s s' hok
    simp only [storeRecsLoop] at hok
    by_cases hf : f k
    · simp [hf] at hok
    · rw [if_neg hf] at hok
      rcases hfind : s.jobs.find? (fun jr => jr.url == m.link) with _ | jr
      all_goals rw [hfind] at hok
      all_goals dsimp only at hok
      · by_cases h1 : f (k + 1)
        · simp [h1] at hok
        · rw [if_neg h1] at hok
          by_cases h2 : f (k + 2)
          · simp [h2] at hok
          · rw [if_neg h2] at hok
            rw [ih f now u r (k + 3) _ s' hok, upsertRec_filter_other]
            rfl
      · by_cases h1 : f (k + 1)
        · simp [h1] at hok
        · rw [if_neg h1] at hok
          rw [ih f now u r (k + 2) _ s' hok, upsertRec_filter_other]

theorem upsertRec_recs_cases (s : DBState) (u r jid : Nat)
    (m : MatchedJob) (rec : RecRow)
    (h : rec ∈ (upsertRec s u r jid m).recs) :
    rec ∈ s.recs ∨
      (rec.user_id = u ∧ rec.resume_id = r ∧ rec.job_id = jid ∧
       rec.match_score = m.matchScore ∧
       rec.reasons = m.recommendationReasons) := by
  unfold upsertRec at h
  split at h
  · rcases List.mem_map.mp h with ⟨x, hx, hgx⟩
    by_cases hk : recKeyed u r jid x
    · right
      rw [if_pos hk] at hgx
      rcases hk with ⟨h1, h2, h3⟩
      rw [← hgx]
      exact ⟨h1, h2, h3, rfl, rfl⟩
    · left
      rw [if_neg hk] at hgx
      exact hgx ▸ hx
  · rcases List.mem_append.mp h with h | h
    · exact Or.inl h
    · right
      obtain rfl := List.mem_singleton.mp h
      exact ⟨rfl, rfl, rfl, rfl, rfl⟩

theorem storeRecsLoop_recs_from :
    ∀ (ms : List MatchedJob) (f : Nat → Bool) (now : Int) (u r k : Nat)
      (s s' : DBState), storeRecsLoop f now u r k s ms = .ok s' →
      ∀ rec ∈ s'.recs, rec ∈ s.recs ∨
        ∃ m ∈ ms, rec.user_id = u ∧ rec.resume_id = r ∧
          rec.match_score = m.matchScore ∧
          rec.reasons = m.recommendationReasons ∧
          ∃ j ∈ s'.jobs, j.id = rec.job_id ∧ j.url = m.link := by
  intro ms
  induction ms with
  | nil =>
    intro f now u r k s s' hok rec hrec
    simp only [storeRecsLoop] at hok
    by_cases hf : f k
    · simp [hf] at hok
    · simp only [if_neg hf, Except.ok.injEq] at hok
      exact Or.inl (hok ▸ hrec)
  | cons m ms ih =>
    intro f now u r k s s' hok rec hrec
    simp only [storeRecsLoop] at hok
    by_cases hf : f k
    · simp [hf] at hok
    · rw [if_neg hf] at hok
      rcases hfind : s.jobs.find? (fun jr => jr.url == m.link) with _ | jr
      all_goals rw [hfind] at hok
      all_goals dsimp only at hok
      · by_cases h1 : f (k + 1)
        · simp [h1] at hok
        · rw [if_neg h1] at hok
          by_cases h2 : f (k + 2)
          · simp [h2] at hok
          · rw [if_neg h2] at hok
            have hjnew : jobRowOfMatch s now m ∈ s'.jobs := by
              refine storeRecsLoop_jobs_mono ms f now u r (k + 3) _ s'
                hok _ ?_
              rw [upsertRec_jobs]
              unfold insertJob
              exact List.mem_append_right _ (List.mem_singleton_self _)
            rcases ih f now u r (k + 3) _ s' hok rec hrec with h | h
            · rcases upsertRec_recs_cases _ u r s.nextId m rec h with
                h' | ⟨e1, e2, e3, e4, e5⟩
              · exact Or.inl h'
              · exact Or.inr ⟨m, List.mem_cons_self _ _, e1, e2, e4, e5,
                  jobRowOfMatch s now m, hjnew, by simp [jobRowOfMatch, e3]⟩
            · rcases h with ⟨m', hm', hrest⟩
              exact Or.inr ⟨m', List.mem_cons_of_mem _ hm', hrest⟩
      · by_cases h1 : f (k + 1)
        · simp [h1] at hok
        · rw [if_neg h1] at hok
          have hjr : jr ∈ s'.jobs := by
            refine storeRecsLoop_jobs_mono ms f now u r (k + 2) _ s'
              hok _ ?_
            rw [upsertRec_jobs]
            exact List.mem_of_find?_eq_some hfind
          have hurl : jr.url = m.link := by
            simpa using List.find?_some hfind
          rcases ih f now u r (k + 2) _ s' hok rec hrec with h | h
          · rcases upsertRec_recs_cases s u r jr.id m rec h with
              h' | ⟨e1, e2, e3, e4, e5⟩
            · exact Or.inl h'
            · exact Or.inr ⟨m, List.mem_cons_self _ _, e1, e2, e4, e5,
                jr, hjr, e3.symm, hurl⟩
          · rcases h with ⟨m', hm', hrest⟩
            exact Or.inr ⟨m', List.mem_cons_of_mem _ hm', hrest⟩

/-- C7: `storeRecommendations` is all-or-nothing.  On any failed
query the caller-visible state is exactly the pre-transaction
state; on success every recommendation row of the `(u, r)` pair
carries the score and reasons of one of this call's matches and
references a stored job row with that match's URL, every match's
URL is present in the jobs table, and rows of every other
`(user, resume)` pair are untouched. -/
theorem storeRecommendations_atomic (f : Nat → Bool) (now : Int)
    (u r : Nat) (matchList : List MatchedJob) (s0 : DBState) :
    ((storeRecommendations f now u r matchList s0).1 = .error () →
      (storeRecommendations f now u r matchList s0).2 = s0) ∧
    ((storeRecommendations f now u r matchList s0).1 = .ok () →
      (∀ rec ∈ (storeRecommendations f now u r matchList s0).2.recs,
        rec.user_id = u → rec.resume_id = r →
        ∃ m ∈ matchList, rec.match_score = m.matchScore ∧
          rec.reasons = m.recommendationReasons ∧
          ∃ j ∈ (storeRecommendations f now u r matchList s0).2.jobs,
            j.id = rec.job_id ∧ j.url = m.link) ∧
      (∀ m ∈ matchList,
        ∃ j ∈ (storeRecommendations f now u r matchList s0).2.jobs,
          j.url = m.link) ∧
      (storeRecommendations f now u r matchList s0).2.recs.filter
          (otherKey u r) = s0.recs.filter (otherKey u r)) := by
  unfold storeRecommendations
  by_cases hf : f 0
  · rw [if_pos hf]
    exact ⟨fun _ => rfl, fun h => by simp at h⟩
  · rw [if_neg hf]
    dsimp only
    rcases hloop : storeRecsLoop f now u r 1
        { s0 with recs := s0.recs.filter (otherKey u r) } matchList with
      e | s2
    all_goals dsimp only
    · exact ⟨fun _ => rfl, fun h => by simp at h⟩
    · refine ⟨fun h => by simp at h, fun _ => ⟨?_, ?_, ?_⟩⟩
      · intro rec hrec hu hr
        rcases storeRecsLoop_recs_from matchList f now u r 1 _ s2 hloop
            rec hrec with h | ⟨m, hm, _, _, e4, e5, hj⟩
        · exfalso
          have := List.of_mem_filter h
          simp [otherKey, hu, hr] at this
        · exact ⟨m, hm, e4, e5, hj⟩
      · intro m hm
        exact storeRecsLoop_links matchList f now u r 1 _ s2 hloop m hm
      · rw [storeRecsLoop_filter_other matchList f now u r 1 _ s2 hloop]
        simp [List.filter_filter]

/-- One concrete match for the C7 witness. -/
def c7match : MatchedJob :=
  { title := "Role", link := "https://job", matchScore := 55
    recommendationReasons := ["Good match for your profile"] }

/-- Witness for C7: a fault-free concrete run persists the match's
job URL. -/
theorem storeRecommendations_atomic_witness :
    ∃ j ∈ (storeRecommendations (fun _ => false) 0 1 2 [c7match]
        { jobs := [], recs := [], nextId := 0 }).2.jobs,
      j.url = c7match.link :=
  ((storeRecommendations_atomic (fun _ => false) 0 1 2 [c7match]
      { jobs := [], recs := [], nextId := 0 }).2 rfl).2.1 c7match
    (List.mem_singleton_self _)

end JobHunter
